import Mathlib

/-!
Verification development for the event-emitter core of this repository
(`src/src/events/EventEmitter.js`, the `lfr.EventEmitter` object).

The JavaScript code is shallowly embedded as pure Lean functions over an
explicit emitter state.  JavaScript function values (listeners) are given
explicit identities by the `Listener` inductive; the observable behaviour of
a user-supplied listener when it is invoked is described by an environment
`env : Nat -> Behavior` mapping a plain listener's identity to what its body
does to the registry (nothing, or a reentrant `off` / `offAny` call --- the
reentrant calls exercised by the source's `many` wrappers and by the hazard
documented in the spec).  The internal counting wrappers created by `many`
carry their captured state (the mutable `amount` closure variable) in the
`counters` field of the state, keyed by a fresh wrapper identity.

Ghost (observation-only) fields of the state, which no embedded operation
reads: `invLog` records every listener invocation in order together with the
arguments passed, and `warnLog` records every diagnostic warning printed by
`console.warning` (listener count and event name, the structured message of
EventEmitter.js lines 60-68).
-/

/-- A JavaScript function value that can be registered as a listener.
`plain id` is a user-supplied function, identified by `id` (JavaScript
object identity). `wrapper wid event origin` is the `handlerInternal`
closure created by one call of `many` (EventEmitter.js lines 136-142): it
captures the event name it was registered for and carries the back-reference
`handlerInternal.origin = listener` used by `off` for equality-based
removal; `wid` is the identity of this particular closure. -/
inductive Listener where
  | plain (id : Nat)
  | wrapper (wid : Nat) (event : String) (origin : Listener)
deriving DecidableEq

/-- A JavaScript value passed as an emission argument. -/
inductive JsArg where
  | str (s : String)
  | fnArg (l : Listener)
  | num (n : Int)
deriving DecidableEq

/-- What the body of a user-supplied (plain) listener does to the registry
when invoked: nothing, or one of the reentrant removal calls that the spec's
self-modification hazard is about.  (No modelled behaviour appends
listeners, which is what makes the index-based live loop of `emit`
terminate; see `runLive`.) -/
inductive Behavior where
  | inert
  | callOff (event : String) (target : Listener)
  | callOffAny (target : Listener)

/-- The value a public emitter method returns: the emitter itself
(`return this;`) or `undefined` (a bare `return;`). -/
inductive JsRet where
  | emitter
  | undef
deriving DecidableEq

/-- The listener array stored at one trie path.  JavaScript stores a plain
array and sets an expando property `warned` on that same array object
(EventEmitter.js line 67); the in-place merge keeps the object identity so
the flag survives later registrations.  In the value semantics here the
array and its flag travel together as one record, and "mutating the array
in place" is modelled by updating the value stored at the path. -/
structure ListenerList where
  entries : List Listener
  warned : Bool
deriving DecidableEq

/-- Modelled from the spec: the repository stores scoped listeners in an
`lfr.Trie` instance (`this.listenersTree_ = new lfr.Trie()`), whose source
file is not among the provided sources; only its call sites are.  Section
4.1 of the spec defines its contract: a tree of nodes, each node optionally
owning a value and a mapping from segment-string to child node. -/
inductive Trie where
  | mk (value : Option ListenerList) (children : List (String × Trie))

/-- Modelled from the spec: lookup of the child node for one segment in a
node's segment-to-child mapping (keys unique, insertion order irrelevant). -/
def Trie.findChild (k : String) : List (String × Trie) → Option Trie
  | [] => none
  | (k', t) :: rest => if k' = k then some t else Trie.findChild k rest

/-- Modelled from the spec: replace (or add) the child node for one segment
in a node's segment-to-child mapping. -/
def Trie.setChild (k : String) (c : Trie) : List (String × Trie) → List (String × Trie)
  | [] => [(k, c)]
  | (k', t) :: rest => if k' = k then (k, c) :: rest else (k', t) :: Trie.setChild k c rest

/-- Modelled from the spec (§4.1 `getValue`): returns the value stored at
the exact path, or an absent result if no value was ever set there; exact
segment-sequence equality only, no prefix or wildcard matching. -/
def Trie.getKeyValue (t : Trie) (path : List String) : Option ListenerList :=
  match t, path with
  | .mk v _, [] => v
  | .mk _ ch, k :: ks =>
    match Trie.findChild k ch with
    | none => none
    | some c => Trie.getKeyValue c ks

/-- Modelled from the spec (§4.1 `setValue`): walks/creates nodes for each
segment in order; at the terminal node, if a value already exists and a
merge function was supplied, stores `mergeFn existing new`, otherwise
stores the new value directly.  Returns the updated trie together with the
resulting stored value (so callers can inspect its length immediately,
as `addListener` does). -/
def Trie.setKeyValue (t : Trie) (path : List String) (nv : ListenerList)
    (mergeFn : Option (ListenerList → ListenerList → ListenerList)) :
    Trie × ListenerList :=
  match t, path with
  | .mk v ch, [] =>
    match v, mergeFn with
    | some old, some f => (.mk (some (f old nv)) ch, f old nv)
    | _, _ => (.mk (some nv) ch, nv)
  | .mk v ch, k :: ks =>
    let c := (Trie.findChild k ch).getD (.mk none [])
    let r := Trie.setKeyValue c ks nv mergeFn
    (.mk v (Trie.setChild k r.1 ch), r.2)

/-- Applies `f` to the value stored at the exact path, if any.  This models
a JavaScript mutation performed directly on the array object obtained from
the trie (the `listeners.warned = true` expando write of line 67 and the
`listeners.splice(i, 1)` of line 179), which is visible through the trie
because the trie stores that same object. -/
def Trie.updateValue (t : Trie) (path : List String) (f : ListenerList → ListenerList) : Trie :=
  match t, path with
  | .mk v ch, [] => .mk (v.map f) ch
  | .mk v ch, k :: ks =>
    match Trie.findChild k ch with
    | none => .mk v ch
    | some c => .mk v (Trie.setChild k (Trie.updateValue c ks f) ch)

/-- The state of one `lfr.EventEmitter` instance.  The first four fields
are the object's own fields (EventEmitter.js lines 8-39).  `counters` holds
the mutable `amount` closure variable of each live `many` wrapper, keyed by
wrapper identity, and `nextWid` supplies fresh wrapper identities.
`warnLog` and `invLog` are ghost observation logs (see the file comment). -/
structure EmitterState where
  listenersTree_ : Trie
  all_ : Option (List Listener)
  delimiter_ : String
  maxListeners_ : Int
  counters : List (Nat × Int)
  nextWid : Nat
  warnLog : List (Nat × String)
  invLog : List (Listener × List JsArg)

/-- A freshly constructed emitter: empty trie, `all_` null, delimiter ".",
max listeners 10 (EventEmitter.js lines 8-39). -/
def initialEmitter : EmitterState :=
  { listenersTree_ := .mk none []
    all_ := none
    delimiter_ := "."
    maxListeners_ := 10
    counters := []
    nextWid := 0
    warnLog := []
    invLog := [] }

/-- EventEmitter.js line 297: `event.split(this.delimiter)`.  The field
that holds the delimiter is `delimiter_` (line 24); `this.delimiter` is
`undefined`, and `String.prototype.split` with an `undefined` separator
returns a one-element array holding the whole string (ECMA-262).  The event
name is therefore never split into segments, whatever the configured
delimiter is. -/
def splitNamespaces (_s : EmitterState) (event : String) : List String :=
  [event]

/-- JavaScript `String.prototype.split` with a non-empty string separator,
over character lists: scan left to right, cut at each first occurrence of
the separator.  The fuel starts at the character count; every step consumes
at least one character, so it never runs out. -/
def jsSplitAux (sep : List Char) : Nat → List Char → List Char → List (List Char)
  | _, [], acc => [acc.reverse]
  | 0, rest, acc => [acc.reverse ++ rest]
  | fuel + 1, c :: cs, acc =>
    if sep.isPrefixOf (c :: cs) then
      acc.reverse :: jsSplitAux sep fuel (List.drop sep.length (c :: cs)) []
    else
      jsSplitAux sep fuel cs (c :: acc)

/-- What line 297 was evidently intended to compute (its JSDoc reads
"Splits the event, using the current delimiter", and `getDelimiter` /
`setDelimiter` read and write `delimiter_`): the event split by the
configured `delimiter_`.  Kept separately so the divergence can be stated.
(An empty delimiter, for which JavaScript would split into single
characters, is left unsplit here; no claim involves it.) -/
def splitNamespacesSpec (s : EmitterState) (event : String) : List String :=
  if s.delimiter_ = "" then [event]
  else
    (jsSplitAux s.delimiter_.data event.data.length event.data []).map
      (fun cs => String.mk cs)

/-- EventEmitter.js lines 109-111: the live listener array for the event's
exact path, or absent. -/
def listeners (s : EmitterState) (event : String) : Option ListenerList :=
  s.listenersTree_.getKeyValue (splitNamespaces s event)

/-- EventEmitter.js lines 117-119. -/
def listenersAny (s : EmitterState) : Option (List Listener) :=
  s.all_

/-- EventEmitter.js lines 155-160: pushes every entry of `arr2` onto
`arr1` and returns `arr1` --- the same object, so the `warned` expando
survives; here the flag of `arr1` is kept. -/
def mergeListenerArrays_ (arr1 arr2 : ListenerList) : ListenerList :=
  { entries := arr1.entries ++ arr2.entries, warned := arr1.warned }

/-- The matching test of EventEmitter.js lines 177-178:
`listeners[i] === listener || (listeners[i].origin && listeners[i].origin === listener)`.
A plain listener has no `origin` property (`undefined`, falsy). -/
def matchesOff (x target : Listener) : Bool :=
  if x = target then true
  else
    match x with
    | .wrapper _ _ o => decide (o = target)
    | .plain _ => false

/-- The removal loop of EventEmitter.js lines 176-182: splice out the first
matching entry, then `break`; later duplicates stay. -/
def removeFirstMatch (target : Listener) : List Listener → List Listener
  | [] => []
  | x :: xs => if matchesOff x target then xs else x :: removeFirstMatch target xs

/-- EventEmitter.js lines 169-186 (`off`, alias `removeListener`), after
the listener-is-a-function check: fetch the exact-path array; if it is an
array, splice out the first matching entry; the splice mutates the stored
array in place (the `warned` flag is untouched).  Returns `this` at the
call sites, modelled by the checked wrapper `offChecked` below. -/
def off (s : EmitterState) (event : String) (l : Listener) : EmitterState :=
  match listeners s event with
  | none => s
  | some _ =>
    let t := s.listenersTree_.updateValue (splitNamespaces s event)
      (fun ll => { ll with entries := removeFirstMatch l ll.entries })
    { s with listenersTree_ := t }

/-- EventEmitter.js lines 193-208 (`offAny`), after the function check:
no-op when `all_` was never created or the listener is absent, otherwise
splice out the first identity match. -/
def offAny (s : EmitterState) (l : Listener) : EmitterState :=
  match s.all_ with
  | none => s
  | some a => if l ∈ a then { s with all_ := some (a.erase l) } else s

/-- Reads a wrapper's captured `amount` variable. -/
def lookupCounter : List (Nat × Int) → Nat → Int
  | [], _ => 0
  | (w, v) :: rest, wid => if w = wid then v else lookupCounter rest wid

/-- Writes a wrapper's captured `amount` variable. -/
def setCounter : List (Nat × Int) → Nat → Int → List (Nat × Int)
  | [], wid, v => [(wid, v)]
  | (w, v') :: rest, wid, v =>
    if w = wid then (wid, v) :: rest else (w, v') :: setCounter rest wid v

/-- Invoking one listener function with the emitter as `this`.  A plain
listener performs whatever its body (the environment) says.  A wrapper is
`handlerInternal` of EventEmitter.js lines 136-141: decrement the captured
`amount`, on reaching zero remove itself via `removeListener`, then apply
the original listener.  Every function entry is recorded in the ghost
`invLog` (wrapper and original separately, in call order). -/
def invoke (env : Nat → Behavior) (s : EmitterState) (l : Listener) (args : List JsArg) :
    EmitterState :=
  match l with
  | .plain id =>
    let s1 := { s with invLog := s.invLog ++ [(l, args)] }
    match env id with
    | .inert => s1
    | .callOff e t => off s1 e t
    | .callOffAny t => offAny s1 t
  | .wrapper wid event origin =>
    let s1 := { s with invLog := s.invLog ++ [(l, args)] }
    let amt := lookupCounter s1.counters wid - 1
    let s2 := { s1 with counters := setCounter s1.counters wid amt }
    let s3 := if amt = 0 then off s2 event (.wrapper wid event origin) else s2
    invoke env s3 origin args

/-- The loop of EventEmitter.js lines 86-91 in the case where a path array
existed: `listeners` is then the fresh array built by `concat`, fixed for
the whole loop, so it is walked entry by entry; `none` models the single
`null` element contributed by `concat(this.all_)` when `all_` is null, and
is skipped by the `if (listeners[i])` truthiness test. -/
def runSnapshot (env : Nat → Behavior) (s : EmitterState) (items : List (Option Listener))
    (args : List JsArg) (listened : Bool) : EmitterState × Bool :=
  match items with
  | [] => (s, listened)
  | none :: rest => runSnapshot env s rest args listened
  | some l :: rest => runSnapshot env (invoke env s l args) rest args true

/-- The loop of EventEmitter.js lines 86-91 in the case where no path array
existed: `listeners` is then `this.all_` itself, the live array, so the
index-based loop re-reads it (length and entries) after every invocation.
Stored entries are always functions, hence truthy.  No modelled listener
behaviour ever appends to `all_`, so the array's length never grows during
the loop and its initial length bounds the number of iterations; `emit`
passes that length as the fuel, which therefore never runs out. -/
def runLive (env : Nat → Behavior) :
    Nat → EmitterState → Nat → List JsArg → Bool → EmitterState × Bool
  | 0, s, _, _, listened => (s, listened)
  | fuel + 1, s, i, args, listened =>
    match s.all_ with
    | none => (s, listened)
    | some a =>
      if hi : i < a.length then
        runLive env fuel (invoke env s (a.get ⟨i, hi⟩) args) (i + 1) args true
      else (s, listened)

/-- EventEmitter.js lines 79-94: fetch the exact-path array via
`this.listeners(event)`; if present (even empty), iterate over the fresh
array `listeners.concat(this.all_)` (`concat` with null appends one null
entry, skipped by the truthiness test); otherwise iterate `this.all_`
itself, or do nothing when it is null.  Returns whether at least one
listener fired. -/
def emit (env : Nat → Behavior) (s : EmitterState) (event : String) (args : List JsArg) :
    EmitterState × Bool :=
  match listeners s event with
  | some ll =>
    let snapshot : List (Option Listener) :=
      ll.entries.map some ++
        (match s.all_ with
         | none => [none]
         | some a => a.map some)
    runSnapshot env s snapshot args false
  | none =>
    match s.all_ with
    | none => (s, false)
    | some a => runLive env a.length s 0 args false

/-- EventEmitter.js lines 47-71 (`addListener`), after the
listener-is-a-function check (the checked entry point `addListenerChecked`
is below): first `this.emit('newListener', event, listener)`, then merge
`[listener]` into the trie at the event's path with the append-merge, then,
if the stored array's length exceeds `maxListeners_` and the array has not
warned before, print the leak warning via `console.warning` (modelled as
appending the structured message data to the ghost `warnLog`) and set the
`warned` flag on that same stored array.  Ends with `return this`. -/
def addListener (env : Nat → Behavior) (s : EmitterState) (event : String) (l : Listener) :
    EmitterState × JsRet :=
  let s0 := (emit env s "newListener" [.str event, .fnArg l]).1
  let r := s0.listenersTree_.setKeyValue (splitNamespaces s0 event)
      { entries := [l], warned := false } (some mergeListenerArrays_)
  let s1 := { s0 with listenersTree_ := r.1 }
  if (r.2.entries.length : Int) > s1.maxListeners_ ∧ r.2.warned = false then
    let t := s1.listenersTree_.updateValue (splitNamespaces s1 event)
      (fun ll => { ll with warned := true })
    ({ s1 with warnLog := s1.warnLog ++ [(r.2.entries.length, event)], listenersTree_ := t },
      .emitter)
  else
    (s1, .emitter)

/-- EventEmitter.js line 216 aliases `on` to `addListener`; `on` is a
notation token in Mathlib, so the alias keeps the primary name here. -/
def onAlias (env : Nat → Behavior) (s : EmitterState) (event : String) (l : Listener) :
    EmitterState × JsRet :=
  addListener env s event l

/-- EventEmitter.js lines 223-230: lazily create `all_`, append, return
`this`. -/
def onAny (s : EmitterState) (l : Listener) : EmitterState × JsRet :=
  ({ s with all_ := some (s.all_.getD [] ++ [l]) }, .emitter)

/-- EventEmitter.js lines 129-147: for a non-positive amount, a bare
`return;` (undefined) --- nothing is registered.  Otherwise create the
counting wrapper `handlerInternal` (a fresh closure whose captured `amount`
lives in `counters`), set its `origin` back-reference, register it with
`self.on(event, handlerInternal)` and `return this`. -/
def many (env : Nat → Behavior) (s : EmitterState) (event : String) (amount : Int)
    (l : Listener) : EmitterState × JsRet :=
  if amount ≤ 0 then (s, .undef)
  else
    let wid := s.nextWid
    let s1 := { s with nextWid := wid + 1, counters := setCounter s.counters wid amount }
    ((addListener env s1 event (.wrapper wid event l)).1, .emitter)

/-- EventEmitter.js lines 239-241: `return this.many(event, 1, listener)`. -/
def once (env : Nat → Behavior) (s : EmitterState) (event : String) (l : Listener) :
    EmitterState × JsRet :=
  many env s event 1 l

/-- EventEmitter.js lines 250-258: `if (opt_event)` --- a present,
non-empty event name (the empty string is falsy in JavaScript) resets that
exact path's value to a fresh empty array; otherwise clear the whole trie
and `delete this.all_`. -/
def removeAllListeners (s : EmitterState) (optEvent : Option String) :
    EmitterState × JsRet :=
  match optEvent with
  | some e =>
    if e = "" then
      ({ s with listenersTree_ := .mk none [], all_ := none }, .emitter)
    else
      ({ s with listenersTree_ :=
          (s.listenersTree_.setKeyValue (splitNamespaces s e)
            { entries := [], warned := false } none).1 }, .emitter)
  | none => ({ s with listenersTree_ := .mk none [], all_ := none }, .emitter)

/-- EventEmitter.js lines 100-102. -/
def getDelimiter (s : EmitterState) : String :=
  s.delimiter_

/-- EventEmitter.js lines 274-277: writes `delimiter_` and returns
`this`. -/
def setDelimiter (s : EmitterState) (d : String) : EmitterState × JsRet :=
  ({ s with delimiter_ := d }, .emitter)

/-- EventEmitter.js lines 287-290: writes `maxListeners_` and returns
`this`. -/
def setMaxListeners (s : EmitterState) (m : Int) : EmitterState × JsRet :=
  ({ s with maxListeners_ := m }, .emitter)

/-- A JavaScript value handed to a registration/removal call: either a
function or some non-invocable value (identified by an opaque tag). -/
inductive JsVal where
  | fn (l : Listener)
  | notFn (tag : Nat)
deriving DecidableEq

/-- The `typeof listener !== 'function'` guard of EventEmitter.js lines
48-50: the TypeError is thrown before any effect, in particular before the
`newListener` emission and the trie merge, so a failing call leaves the
state untouched (the error result carries no successor state). -/
def addListenerChecked (env : Nat → Behavior) (s : EmitterState) (event : String)
    (v : JsVal) : Except String (EmitterState × JsRet) :=
  match v with
  | .notFn _ => .error "Listener must be a function"
  | .fn l => .ok (addListener env s event l)

/-- The guard of EventEmitter.js lines 170-172, then the `off` body;
`return this`. -/
def offChecked (s : EmitterState) (event : String) (v : JsVal) :
    Except String (EmitterState × JsRet) :=
  match v with
  | .notFn _ => .error "Listener must be a function"
  | .fn l => .ok (off s event l, .emitter)

/-- The guard of EventEmitter.js lines 194-196, then the `offAny` body;
`return this`. -/
def offAnyChecked (s : EmitterState) (v : JsVal) :
    Except String (EmitterState × JsRet) :=
  match v with
  | .notFn _ => .error "Listener must be a function"
  | .fn l => .ok (offAny s l, .emitter)

/-- The environment in which every user listener body does nothing. -/
def inertEnv : Nat → Behavior :=
  fun _ => .inert

/-- How many times the listener `l` has been invoked, read off the ghost
invocation log. -/
def invCount (s : EmitterState) (l : Listener) : Nat :=
  (s.invLog.filter (fun p => decide (p.1 = l))).length

/-- The entries of the exact-path listener array for `event`, or `[]` when
the path is absent. -/
def pathEntries (s : EmitterState) (event : String) : List Listener :=
  ((listeners s event).map ListenerList.entries).getD []

/-- The entries of the unscoped listener array, or `[]` when it was never
created. -/
def anyEntries (s : EmitterState) : List Listener :=
  s.all_.getD []

/-- Whether a listener is a user-supplied plain function (not a `many`
wrapper). -/
def isPlain : Listener → Bool
  | .plain _ => true
  | .wrapper _ _ _ => false

/-- Emit the same event `m` times in sequence with no arguments. -/
def emitN (env : Nat → Behavior) (e : String) : Nat → EmitterState → EmitterState
  | 0, s => s
  | m + 1, s => emitN env e m (emit env s e []).1

/-- The state reached by registering `n` distinct plain listeners for the
event `"ev"` on a fresh emitter, in order. -/
def regMany (n : Nat) : EmitterState :=
  (List.range n).foldl (fun s i => (addListener inertEnv s "ev" (.plain i)).1) initialEmitter

/-- The state of the spec's `onAny(L3)` plus `on("x", L4)` scenario:
`L4 = plain 4` scoped to `"x"`, `L3 = plain 3` unscoped. -/
def c4S : EmitterState :=
  (onAny (addListener inertEnv initialEmitter "x" (.plain 4)).1 (.plain 3)).1

/-- A state with one listener registered for the empty-string event name
and one unscoped listener. -/
def c8S : EmitterState :=
  (onAny (addListener inertEnv initialEmitter "" (.plain 1)).1 (.plain 2)).1

/-- A state where a one-shot wrapper around `plain 1` and then `plain 2`
are registered for `"x"`: the wrapper will remove itself during the first
emission, while `plain 2` sits behind it in the same array. -/
def snapshotDemoState : EmitterState :=
  (addListener inertEnv (many inertEnv initialEmitter "x" 1 (.plain 1)).1 "x" (.plain 2)).1

/-- An environment in which the body of listener `plain 5` calls
`this.offAny` on itself (a listener removing itself reentrantly); every
other listener body does nothing. -/
def liveDemoEnv : Nat → Behavior :=
  fun n => if n = 5 then .callOffAny (.plain 5) else .inert

/-- A state with two unscoped listeners, `plain 5` (self-removing under
`liveDemoEnv`) followed by `plain 6`, and no scoped listeners at all. -/
def liveDemoState : EmitterState :=
  (onAny (onAny initialEmitter (.plain 5)).1 (.plain 6)).1

/-- The family of states reached while a single `many` registration on a
fresh emitter is being consumed: the path for `e` holds `entries` (the
wrapper list), wrapper `0` has `k` invocations left, nothing else is
registered, and `log` is the invocation history so far. -/
def c5State (e : String) (entries : List Listener) (k : Int)
    (log : List (Listener × List JsArg)) : EmitterState :=
  { listenersTree_ := .mk none [(e, .mk (some { entries := entries, warned := false }) [])]
    all_ := none
    delimiter_ := "."
    maxListeners_ := 10
    counters := [(0, k)]
    nextWid := 1
    warnLog := []
    invLog := log }

/-- A state with two plain listeners registered for `"e"`, in order. -/
def c7W : EmitterState :=
  (addListener inertEnv (addListener inertEnv initialEmitter "e" (.plain 1)).1 "e"
    (.plain 2)).1

theorem Trie.findChild_setChild_self (k : String) (c : Trie) (ch : List (String × Trie)) :
    Trie.findChild k (Trie.setChild k c ch) = some c := by
  induction ch with
  | nil => simp [Trie.setChild, Trie.findChild]
  | cons hd tl ih =>
    obtain ⟨k', t⟩ := hd
    by_cases h : k' = k
    · simp [Trie.setChild, Trie.findChild, h]
    · simp [Trie.setChild, Trie.findChild, h, ih]

theorem Trie.findChild_setChild_other (k k' : String) (c : Trie) (ch : List (String × Trie))
    (h : k' ≠ k) : Trie.findChild k' (Trie.setChild k c ch) = Trie.findChild k' ch := by
  induction ch with
  | nil => simp [Trie.setChild, Trie.findChild, Ne.symm h]
  | cons hd tl ih =>
    obtain ⟨k'', t⟩ := hd
    by_cases h2 : k'' = k
    · subst h2
      simp [Trie.setChild, Trie.findChild, Ne.symm h]
    · by_cases h3 : k'' = k'
      · simp [Trie.setChild, Trie.findChild, h, h2, h3]
      · simp [Trie.setChild, Trie.findChild, h, h2, h3, ih]

theorem Trie.setChild_of_findChild (k : String) :
    ∀ (ch : List (String × Trie)) (c : Trie), Trie.findChild k ch = some c →
      Trie.setChild k c ch = ch := by
  intro ch
  induction ch with
  | nil => intro c h; simp [Trie.findChild] at h
  | cons hd tl ih =>
    intro c h
    obtain ⟨k', t⟩ := hd
    by_cases h2 : k' = k
    · subst h2
      simp only [Trie.findChild, eq_self_iff_true, if_true, Option.some.injEq] at h
      subst h
      simp [Trie.setChild]
    · simp only [Trie.findChild, if_neg h2] at h
      simp [Trie.setChild, h2, ih c h]

theorem Trie.getKeyValue_empty (p : List String) :
    Trie.getKeyValue (.mk none []) p = none := by
  cases p <;> simp [Trie.getKeyValue, Trie.findChild]

theorem Trie.getKeyValue_updateValue_self (f : ListenerList → ListenerList) :
    ∀ (p : List String) (t : Trie),
      (t.updateValue p f).getKeyValue p = (t.getKeyValue p).map f := by
  intro p
  induction p with
  | nil => intro t; cases t; simp [Trie.updateValue, Trie.getKeyValue]
  | cons k ks ih =>
    intro t
    cases t with
    | mk v ch =>
      cases hfc : Trie.findChild k ch with
      | none => simp [Trie.updateValue, Trie.getKeyValue, hfc]
      | some c =>
        simp [Trie.updateValue, Trie.getKeyValue, hfc, Trie.findChild_setChild_self, ih]

theorem Trie.getKeyValue_updateValue_other (f : ListenerList → ListenerList) :
    ∀ (p q : List String), p ≠ q → ∀ t : Trie,
      (t.updateValue p f).getKeyValue q = t.getKeyValue q := by
  intro p
  induction p with
  | nil =>
    intro q hpq t
    cases t with
    | mk v ch =>
      cases q with
      | nil => exact absurd rfl hpq
      | cons k' ks' => simp [Trie.updateValue, Trie.getKeyValue]
  | cons k ks ih =>
    intro q hpq t
    cases t with
    | mk v ch =>
      cases q with
      | nil =>
        cases hfc : Trie.findChild k ch <;> simp [Trie.updateValue, Trie.getKeyValue, hfc]
      | cons k' ks' =>
        cases hfc : Trie.findChild k ch with
        | none => simp [Trie.updateValue, hfc]
        | some c =>
          by_cases hk : k' = k
          · subst hk
            have hks : ks ≠ ks' := by
              intro hh
              exact hpq (by rw [hh])
            simp [Trie.updateValue, Trie.getKeyValue, hfc, Trie.findChild_setChild_self,
              ih ks' hks]
          · simp [Trie.updateValue, Trie.getKeyValue, hfc,
              Trie.findChild_setChild_other k k' _ _ hk]

theorem Trie.getKeyValue_setKeyValue_self (nv : ListenerList) :
    ∀ (p : List String) (t : Trie),
      ((t.setKeyValue p nv none).1).getKeyValue p = some nv := by
  intro p
  induction p with
  | nil =>
    intro t
    cases t with
    | mk v ch => cases v <;> simp [Trie.setKeyValue, Trie.getKeyValue]
  | cons k ks ih =>
    intro t
    cases t with
    | mk v ch =>
      simp [Trie.setKeyValue, Trie.getKeyValue, Trie.findChild_setChild_self, ih]

theorem Trie.getKeyValue_setKeyValue_other (nv : ListenerList)
    (mf : Option (ListenerList → ListenerList → ListenerList)) :
    ∀ (p q : List String), p ≠ q → ∀ t : Trie,
      ((t.setKeyValue p nv mf).1).getKeyValue q = t.getKeyValue q := by
  intro p
  induction p with
  | nil =>
    intro q hpq t
    cases t with
    | mk v ch =>
      cases q with
      | nil => exact absurd rfl hpq
      | cons k' ks' =>
        cases v <;> cases mf <;> simp [Trie.setKeyValue, Trie.getKeyValue]
  | cons k ks ih =>
    intro q hpq t
    cases t with
    | mk v ch =>
      cases q with
      | nil =>
        simp [Trie.setKeyValue, Trie.getKeyValue]
      | cons k' ks' =>
        by_cases hk : k' = k
        · subst hk
          have hks : ks ≠ ks' := by
            intro hh
            exact hpq (by rw [hh])
          cases hfc : Trie.findChild k' ch with
          | none =>
            simp [Trie.setKeyValue, Trie.getKeyValue, hfc, Trie.findChild_setChild_self,
              ih ks' hks, Trie.getKeyValue_empty]
          | some c =>
            simp [Trie.setKeyValue, Trie.getKeyValue, hfc, Trie.findChild_setChild_self,
              ih ks' hks]
        · simp [Trie.setKeyValue, Trie.getKeyValue,
            Trie.findChild_setChild_other k k' _ _ hk]

theorem Trie.updateValue_id (f : ListenerList → ListenerList) :
    ∀ (p : List String) (t : Trie),
      (∀ ll, t.getKeyValue p = some ll → f ll = ll) → t.updateValue p f = t := by
  intro p
  induction p with
  | nil =>
    intro t h
    cases t with
    | mk v ch =>
      cases v with
      | none => simp [Trie.updateValue]
      | some ll =>
        have : f ll = ll := h ll (by simp [Trie.getKeyValue])
        simp [Trie.updateValue, this]
  | cons k ks ih =>
    intro t h
    cases t with
    | mk v ch =>
      cases hfc : Trie.findChild k ch with
      | none => simp [Trie.updateValue, hfc]
      | some c =>
        have hsub : c.updateValue ks f = c := by
          refine ih c (fun ll hll => h ll ?_)
          simp [Trie.getKeyValue, hfc, hll]
        simp [Trie.updateValue, hfc, hsub, Trie.setChild_of_findChild k ch c hfc]

theorem removeFirstMatch_of_nomatch (l : Listener) :
    ∀ L : List Listener, (∀ y ∈ L, matchesOff y l = false) → removeFirstMatch l L = L := by
  intro L
  induction L with
  | nil => intro _; rfl
  | cons x xs ih =>
    intro h
    have hx : matchesOff x l = false := h x (by simp)
    simp [removeFirstMatch, hx, ih (fun y hy => h y (by simp [hy]))]

theorem removeFirstMatch_append (l x : Listener) (post : List Listener) :
    ∀ pre : List Listener, (∀ y ∈ pre, matchesOff y l = false) → matchesOff x l = true →
      removeFirstMatch l (pre ++ x :: post) = pre ++ post := by
  intro pre
  induction pre with
  | nil => intro _ hx; simp [removeFirstMatch, hx]
  | cons y ys ih =>
    intro h hx
    have hy : matchesOff y l = false := h y (by simp)
    simp [removeFirstMatch, hy, ih (fun z hz => h z (by simp [hz])) hx]

/-- C1: the claim says that every operation resolves the trie path by
splitting the event name by the configured delimiter (default `"."`), so
that `"a.b.c"` maps to `["a","b","c"]`, and that after `setDelimiter(d)`
later calls split by `d`.  The code reads `this.delimiter`, but the field
is named `delimiter_` (EventEmitter.js line 24 versus line 297), so the
separator is `undefined` and the event is never split: `"a.b.c"` resolves
to the single segment `["a.b.c"]`, `setDelimiter` has no effect on
splitting, and a listener registered for `"a.b.c"` is stored at the
one-segment path, not at `["a","b","c"]`.  The code contradicts its own
JSDoc ("Splits the event, using the current delimiter") and its
`getDelimiter`/`setDelimiter` accessors, which use `delimiter_`. -/
theorem c1_delimiter_field_bug :
    splitNamespaces initialEmitter "a.b.c" = ["a.b.c"] ∧
    splitNamespacesSpec initialEmitter "a.b.c" = ["a", "b", "c"] ∧
    splitNamespaces initialEmitter "a.b.c" ≠ splitNamespacesSpec initialEmitter "a.b.c" ∧
    splitNamespaces (setDelimiter initialEmitter ":").1 "a:b" = ["a:b"] ∧
    splitNamespacesSpec (setDelimiter initialEmitter ":").1 "a:b" = ["a", "b"] ∧
    listeners (addListener inertEnv initialEmitter "a.b.c" (.plain 1)).1 "a.b.c"
      = some { entries := [.plain 1], warned := false } ∧
    Trie.getKeyValue (addListener inertEnv initialEmitter "a.b.c" (.plain 1)).1.listenersTree_
      ["a", "b", "c"] = none := by
  decide

/-- C2: with the default `maxListeners` of 10, ten registrations on the
path `"ev"` warn nothing; the 11th succeeds and issues exactly one
diagnostic warning carrying the listener count 11 and the event name, and
sets the `warned` flag on the stored array; the 12th registration succeeds
and does not warn again, because the append-merge returned the same
(flagged) array. -/
theorem c2_leak_warning_once :
    (regMany 10).warnLog = [] ∧
    (regMany 11).warnLog = [(11, "ev")] ∧
    (listeners (regMany 11) "ev").map (fun ll => ll.entries.length) = some 11 ∧
    (listeners (regMany 11) "ev").map ListenerList.warned = some true ∧
    (addListener inertEnv (regMany 10) "ev" (.plain 10)).2 = JsRet.emitter ∧
    (regMany 12).warnLog = [(11, "ev")] ∧
    (listeners (regMany 12) "ev").map (fun ll => ll.entries.length) = some 12 ∧
    (listeners (regMany 12) "ev").map ListenerList.warned = some true := by
  decide

/-- C3: the claim says `setMaxListeners(0)` means unlimited, so no leak
warning is ever issued.  The warn guard of EventEmitter.js line 60 is
`listeners.length > this.maxListeners_` with no special case for zero, so
with `maxListeners_ = 0` the very first registration already warns
(1 > 0), contradicting the claim and the code's own JSDoc for
`setMaxListeners` ("Set to zero for unlimited.").  The registration itself
still succeeds. -/
theorem c3_zero_maxListeners_still_warns :
    (addListener inertEnv (setMaxListeners initialEmitter 0).1 "e" (.plain 1)).1.warnLog
      = [(1, "e")] ∧
    listeners (addListener inertEnv (setMaxListeners initialEmitter 0).1 "e" (.plain 1)).1 "e"
      = some { entries := [.plain 1], warned := true } := by
  decide

/-- C9 counterexample: `many` with amount `0` hits the `amount <= 0` guard
of EventEmitter.js lines 132-134, which is a bare `return;` --- the call
returns `undefined`, not the registry, and registers nothing, refuting the
claim's "for every amount". -/
theorem c9_chaining_counterexample :
    (many inertEnv initialEmitter "e" 0 (.plain 1)).2 = JsRet.undef ∧
    JsRet.undef ≠ JsRet.emitter ∧
    listeners (many inertEnv initialEmitter "e" 0 (.plain 1)).1 "e" = none := by
  decide

/-- C9 amended: `on`/`addListener` and `once` always return the registry
itself, and `many` returns the registry for every amount of at least 1;
for a non-positive amount `many` returns `undefined` and leaves the state
unchanged. -/
theorem c9_chaining_amended :
    (∀ env s e l, (addListener env s e l).2 = JsRet.emitter) ∧
    (∀ env s e (a : Int) l, 1 ≤ a → (many env s e a l).2 = JsRet.emitter) ∧
    (∀ env s e l, (once env s e l).2 = JsRet.emitter) ∧
    (∀ env s e (a : Int) l, a ≤ 0 → many env s e a l = (s, JsRet.undef)) := by
  refine ⟨?_, ?_, ?_, ?_⟩
  · intro env s e l
    rw [addListener]
    split <;> rfl
  · intro env s e a l ha
    rw [many, if_neg (by omega)]
  · intro env s e l
    rw [once, many, if_neg (by omega)]
  · intro env s e a l ha
    rw [many, if_pos ha]

/-- C9 witness: the amended theorem applied at a concrete input. -/
theorem c9_chaining_amended_witness :
    (1 : Int) ≤ 1 ∧ (many inertEnv initialEmitter "e" 1 (.plain 1)).2 = JsRet.emitter :=
  ⟨by decide, c9_chaining_amended.2.1 inertEnv initialEmitter "e" 1 (.plain 1) (by decide)⟩

/-- C10: when a path array exists, `emit` iterates the fresh array built by
`concat`, so the one-shot wrapper removing itself mid-emission neither
skips nor duplicates anything: both `plain 1` (through its wrapper) and the
later-registered `plain 2` run exactly once, and the wrapper is gone
afterwards.  When no path array exists, `emit` iterates the live `all_`
array itself: the self-removing `plain 5` shifts the indices and the next
entry `plain 6` is skipped, although with inert listener bodies the same
state would have run `plain 6` too. -/
theorem c10_snapshot_vs_live :
    invCount (emit inertEnv snapshotDemoState "x" []).1 (.plain 1) = 1 ∧
    invCount (emit inertEnv snapshotDemoState "x" []).1 (.plain 2) = 1 ∧
    (emit inertEnv snapshotDemoState "x" []).2 = true ∧
    listeners (emit inertEnv snapshotDemoState "x" []).1 "x"
      = some { entries := [.plain 2], warned := false } ∧
    invCount (emit liveDemoEnv liveDemoState "y" []).1 (.plain 5) = 1 ∧
    invCount (emit liveDemoEnv liveDemoState "y" []).1 (.plain 6) = 0 ∧
    (emit liveDemoEnv liveDemoState "y" []).2 = true ∧
    listenersAny (emit liveDemoEnv liveDemoState "y" []).1 = some [.plain 6] ∧
    invCount (emit inertEnv liveDemoState "y" []).1 (.plain 6) = 1 := by
  decide

/-- C8 counterexample: the claim says that `removeAllListeners` called
with an event name resets only that exact path's list and leaves the
unscoped list unchanged.  The empty string is a usable event name (a
listener registered for it fires on `emit("")`) but is falsy in
JavaScript, so `if (opt_event)` (EventEmitter.js line 251) takes the
no-argument branch: the whole trie is cleared and the unscoped list is
discarded. -/
theorem c8_empty_event_counterexample :
    listenersAny c8S = some [.plain 2] ∧
    listeners c8S "" = some { entries := [.plain 1], warned := false } ∧
    (emit inertEnv c8S "" []).2 = true ∧
    listenersAny (removeAllListeners c8S (some "")).1 = none ∧
    listeners (removeAllListeners c8S (some "")).1 "" = none := by
  decide

/-- C6: `on`/`addListener`, `off`/`removeListener` and `offAny` called with
a non-invocable listener fail synchronously with the TypeError
"Listener must be a function", thrown before any effect (in particular
before the `newListener` emission and before any trie write, so the state
is untouched --- the error result carries no successor state).  For
invocable listeners every other input is a total no-op: `off` with an
unknown event name or with a listener matching no entry leaves the state
unchanged, `offAny` with no unscoped list leaves it unchanged, and `emit`
with zero listeners raises nothing and returns false. -/
theorem c6_invalid_listener_errors :
    (∀ env s e t, addListenerChecked env s e (.notFn t)
      = .error "Listener must be a function") ∧
    (∀ s e t, offChecked s e (.notFn t) = .error "Listener must be a function") ∧
    (∀ s t, offAnyChecked s (.notFn t) = .error "Listener must be a function") ∧
    (∀ s e l, listeners s e = none → off s e l = s) ∧
    (∀ s e l ll, listeners s e = some ll →
      (∀ y ∈ ll.entries, matchesOff y l = false) → off s e l = s) ∧
    (∀ s l, s.all_ = none → offAny s l = s) ∧
    (∀ s e args, listeners s e = none → s.all_ = none →
      emit inertEnv s e args = (s, false)) := by
  refine ⟨fun env s e t => rfl, fun s e t => rfl, fun s t => rfl, ?_, ?_, ?_, ?_⟩
  · intro s e l h
    simp [off, h]
  · intro s e l ll h hno
    have hf : ∀ ll2, s.listenersTree_.getKeyValue (splitNamespaces s e) = some ll2 →
        (fun ll3 => { ll3 with entries := removeFirstMatch l ll3.entries }) ll2 = ll2 := by
      intro ll2 hll2
      have h2 : some ll = some ll2 := by rw [← h]; exact hll2
      have h3 : ll = ll2 := Option.some.inj h2
      simp only [← h3]
      simp [removeFirstMatch_of_nomatch l ll.entries hno]
    simp only [off, h]
    rw [Trie.updateValue_id _ (splitNamespaces s e) s.listenersTree_ hf]
  · intro s l h
    simp [offAny, h]
  · intro s e args h1 h2
    simp [emit, h1, h2]

/-- C6 witness: the zero-listener emission clause at a concrete input. -/
theorem c6_invalid_listener_errors_witness :
    listeners initialEmitter "z" = none ∧ initialEmitter.all_ = none ∧
    emit inertEnv initialEmitter "z" [] = (initialEmitter, false) :=
  ⟨rfl, rfl, c6_invalid_listener_errors.2.2.2.2.2.2 initialEmitter "z" [] rfl rfl⟩

/-- C7: `off(event, listener)` removes from the exact-path list precisely
the first entry that is the listener itself or whose `origin`
back-reference is the listener --- so a `once`/`many` wrapper is removable
by the original listener reference --- and removes nothing further even if
later entries also match; every other path and the unscoped list are
untouched.  With no matching entry, or no list at the path, the call is a
complete no-op. -/
theorem c7_off_first_match :
    (∀ s e l ll pre x post,
      listeners s e = some ll →
      ll.entries = pre ++ x :: post →
      (∀ y ∈ pre, matchesOff y l = false) →
      matchesOff x l = true →
      listeners (off s e l) e = some { entries := pre ++ post, warned := ll.warned } ∧
      (∀ e2, e2 ≠ e → listeners (off s e l) e2 = listeners s e2) ∧
      (off s e l).all_ = s.all_) ∧
    (∀ s e l, listeners s e = none → off s e l = s) ∧
    (∀ s e l ll, listeners s e = some ll →
      (∀ y ∈ ll.entries, matchesOff y l = false) → off s e l = s) ∧
    (∀ wid e orig, matchesOff (.wrapper wid e orig) orig = true) := by
  refine ⟨?_, ?_, ?_, ?_⟩
  · intro s e l ll pre x post hll hentries hpre hx
    have hget : s.listenersTree_.getKeyValue [e] = some ll := hll
    refine ⟨?_, ?_, ?_⟩
    · simp only [listeners, splitNamespaces, off, hget]
      rw [Trie.getKeyValue_updateValue_self]
      rw [hget]
      simp [hentries, removeFirstMatch_append l x post pre hpre hx]
    · intro e2 he2
      have hne : ([e] : List String) ≠ [e2] := by simp [Ne.symm he2]
      simp only [listeners, splitNamespaces, off, hget]
      rw [Trie.getKeyValue_updateValue_other _ [e] [e2] hne]
    · simp [off, listeners, splitNamespaces, hget]
  · intro s e l h
    simp [off, h]
  · intro s e l ll h hno
    have hf : ∀ ll2, s.listenersTree_.getKeyValue (splitNamespaces s e) = some ll2 →
        (fun ll3 => { ll3 with entries := removeFirstMatch l ll3.entries }) ll2 = ll2 := by
      intro ll2 hll2
      have h2 : some ll = some ll2 := by rw [← h]; exact hll2
      have h3 : ll = ll2 := Option.some.inj h2
      simp only [← h3]
      simp [removeFirstMatch_of_nomatch l ll.entries hno]
    simp only [off, h]
    rw [Trie.updateValue_id _ (splitNamespaces s e) s.listenersTree_ hf]
  · intro wid e orig
    by_cases h : Listener.wrapper wid e orig = orig <;> simp [matchesOff, h]

/-- C7 witness: removing `plain 1` from `[plain 1, plain 2]` leaves
`[plain 2]`. -/
theorem c7_off_first_match_witness :
    listeners c7W "e" = some { entries := [.plain 1, .plain 2], warned := false } ∧
    listeners (off c7W "e" (.plain 1)) "e"
      = some { entries := [.plain 2], warned := false } := by
  have h := (c7_off_first_match.1 c7W "e" (.plain 1)
      { entries := [.plain 1, .plain 2], warned := false } [] (.plain 1) [.plain 2]
      (by decide) (by decide) (by decide) (by decide)).1
  exact ⟨by decide, by simpa using h⟩

/-- C8 amended: with a non-empty event name, `removeAllListeners` resets
exactly that path's list to a fresh empty unwarned array and touches
nothing else (other paths and the unscoped list are unchanged); with no
argument --- or with the empty-string event name, which JavaScript's
truthiness test lumps in with it --- the whole trie is cleared and the
unscoped list is discarded entirely, so every `listeners(x)` and
`listenersAny()` is afterwards absent. -/
theorem c8_removeAll_amended :
    (∀ s e, e ≠ "" →
      listeners (removeAllListeners s (some e)).1 e
        = some { entries := [], warned := false } ∧
      (∀ e2, e2 ≠ e → listeners (removeAllListeners s (some e)).1 e2 = listeners s e2) ∧
      (removeAllListeners s (some e)).1.all_ = s.all_) ∧
    (∀ s e2, listeners (removeAllListeners s none).1 e2 = none) ∧
    (∀ s, (removeAllListeners s none).1.all_ = none) ∧
    (∀ s, removeAllListeners s (some "") = removeAllListeners s none) := by
  refine ⟨?_, ?_, fun s => rfl, fun s => rfl⟩
  · intro s e he
    refine ⟨?_, ?_, ?_⟩
    · show Trie.getKeyValue _ [e] = _
      simp only [removeAllListeners, if_neg he]
      exact Trie.getKeyValue_setKeyValue_self _ [e] s.listenersTree_
    · intro e2 he2
      have hne : ([e] : List String) ≠ [e2] := by simp [Ne.symm he2]
      show Trie.getKeyValue _ [e2] = _
      simp only [removeAllListeners, if_neg he]
      exact Trie.getKeyValue_setKeyValue_other _ _ [e] [e2] hne s.listenersTree_
    · simp [removeAllListeners, he]
  · intro s e2
    exact Trie.getKeyValue_empty [e2]

/-- C8 witness: the amended reset clause at a concrete input. -/
theorem c8_removeAll_amended_witness :
    ("x" : String) ≠ "" ∧
    listeners
      (removeAllListeners (addListener inertEnv initialEmitter "x" (.plain 1)).1
        (some "x")).1 "x" = some { entries := [], warned := false } :=
  ⟨by decide,
    (c8_removeAll_amended.1 (addListener inertEnv initialEmitter "x" (.plain 1)).1 "x"
      (by decide)).1⟩

theorem invoke_inert_plain (s : EmitterState) (id : Nat) (args : List JsArg) :
    invoke inertEnv s (.plain id) args
      = { s with invLog := s.invLog ++ [(.plain id, args)] } := rfl

theorem invoke_inert_plain_mk (tree : Trie) (al : Option (List Listener)) (del : String)
    (ml : Int) (cnt : List (Nat × Int)) (nw : Nat) (wl : List (Nat × String))
    (il : List (Listener × List JsArg)) (id : Nat) (args : List JsArg) :
    invoke inertEnv ⟨tree, al, del, ml, cnt, nw, wl, il⟩ (.plain id) args
      = ⟨tree, al, del, ml, cnt, nw, wl, il ++ [(.plain id, args)]⟩ := rfl

theorem runSnapshot_inert (args : List JsArg) :
    ∀ (items : List (Option Listener)) (s : EmitterState) (listened : Bool),
      (∀ l, some l ∈ items → isPlain l = true) →
      runSnapshot inertEnv s items args listened
        = ({ s with invLog := s.invLog ++ (items.filterMap id).map (fun l => (l, args)) },
           listened || !(items.filterMap id).isEmpty) := by
  intro items
  induction items with
  | nil => intro s listened h; simp [runSnapshot]
  | cons hd rest ih =>
    intro s listened h
    cases hd with
    | none =>
      simp only [runSnapshot]
      rw [ih s listened (fun l hl => h l (by simp [hl]))]
      simp
    | some l =>
      have hl : isPlain l = true := h l (by simp)
      obtain ⟨id, rfl⟩ : ∃ id, l = .plain id := by
        cases l with
        | plain id => exact ⟨id, rfl⟩
        | wrapper w e o => simp [isPlain] at hl
      simp only [runSnapshot]
      rw [invoke_inert_plain]
      rw [ih _ true (fun l2 hl2 => h l2 (by simp [hl2]))]
      simp

theorem runLive_inert (args : List JsArg) (a : List Listener)
    (hpl : ∀ l ∈ a, isPlain l = true) :
    ∀ (fuel : Nat) (tree : Trie) (del : String) (ml : Int) (cnt : List (Nat × Int))
      (nw : Nat) (wl : List (Nat × String)) (il : List (Listener × List JsArg))
      (i : Nat) (listened : Bool),
      a.length - i ≤ fuel →
      runLive inertEnv fuel ⟨tree, some a, del, ml, cnt, nw, wl, il⟩ i args listened
        = (⟨tree, some a, del, ml, cnt, nw, wl,
            il ++ (a.drop i).map (fun l => (l, args))⟩,
           listened || !(a.drop i).isEmpty) := by
  intro fuel
  induction fuel with
  | zero =>
    intro tree del ml cnt nw wl il i listened hf
    rw [List.drop_eq_nil_of_le (by omega)]
    simp [runLive]
  | succ fuel ih =>
    intro tree del ml cnt nw wl il i listened hf
    simp only [runLive]
    by_cases hi : i < a.length
    · rw [dif_pos hi]
      obtain ⟨id, hid⟩ : ∃ id, a.get ⟨i, hi⟩ = .plain id := by
        have hpl2 := hpl _ (a.get_mem i hi)
        cases hget : a.get ⟨i, hi⟩ with
        | plain id => exact ⟨id, rfl⟩
        | wrapper w e o => rw [hget] at hpl2; simp [isPlain] at hpl2
      rw [hid, invoke_inert_plain_mk]
      rw [ih tree del ml cnt nw wl (il ++ [(Listener.plain id, args)]) (i + 1) true (by omega)]
      rw [List.drop_eq_get_cons hi, hid]
      simp
    · rw [dif_neg hi]
      rw [List.drop_eq_nil_of_le (by omega)]
      simp

theorem emit_inert_plain (s : EmitterState) (e : String) (args : List JsArg)
    (hp : ∀ l ∈ pathEntries s e, isPlain l = true)
    (ha : ∀ l ∈ anyEntries s, isPlain l = true) :
    emit inertEnv s e args
      = ({ s with invLog := s.invLog
            ++ (pathEntries s e ++ anyEntries s).map (fun l => (l, args)) },
         !(pathEntries s e ++ anyEntries s).isEmpty) := by
  obtain ⟨tree, al, del, ml, cnt, nw, wl, il⟩ := s
  cases al with
  | none =>
    have h2 : anyEntries ⟨tree, none, del, ml, cnt, nw, wl, il⟩ = [] := rfl
    cases hL : listeners ⟨tree, none, del, ml, cnt, nw, wl, il⟩ e with
    | none =>
      have h1 : pathEntries ⟨tree, none, del, ml, cnt, nw, wl, il⟩ e = [] := by
        simp [pathEntries, hL]
      simp [emit, hL, h1, h2]
    | some ll =>
      have h1 : pathEntries ⟨tree, none, del, ml, cnt, nw, wl, il⟩ e = ll.entries := by
        simp [pathEntries, hL]
      simp only [emit, hL]
      rw [runSnapshot_inert args (ll.entries.map some ++ [none]) _ false ?_]
      · simp [h1, h2, List.filterMap_map, List.filterMap_some]
      · intro l hl
        simp only [List.mem_append, List.mem_map, List.mem_singleton] at hl
        rcases hl with ⟨l2, hl2, he2⟩ | hfalse
        · obtain rfl : l2 = l := Option.some.inj he2
          exact hp l2 (by rw [h1]; exact hl2)
        · exact absurd hfalse (by simp)
  | some a =>
    have h2 : anyEntries ⟨tree, some a, del, ml, cnt, nw, wl, il⟩ = a := rfl
    cases hL : listeners ⟨tree, some a, del, ml, cnt, nw, wl, il⟩ e with
    | none =>
      have h1 : pathEntries ⟨tree, some a, del, ml, cnt, nw, wl, il⟩ e = [] := by
        simp [pathEntries, hL]
      simp only [emit, hL]
      rw [runLive_inert args a (by rw [← h2]; exact ha) a.length tree del ml cnt nw wl il 0
        false (by omega)]
      simp [h1, h2]
    | some ll =>
      have h1 : pathEntries ⟨tree, some a, del, ml, cnt, nw, wl, il⟩ e = ll.entries := by
        simp [pathEntries, hL]
      simp only [emit, hL]
      rw [runSnapshot_inert args (ll.entries.map some ++ a.map some) _ false ?_]
      · simp [h1, h2, List.filterMap_map, List.filterMap_some]
      · intro l hl
        simp only [List.mem_append, List.mem_map] at hl
        rcases hl with ⟨l2, hl2, he2⟩ | ⟨l2, hl2, he2⟩
        · obtain rfl : l2 = l := Option.some.inj he2
          exact hp l2 (by rw [h1]; exact hl2)
        · obtain rfl : l2 = l := Option.some.inj he2
          exact ha l2 (by rw [h2]; exact hl2)

/-- C4: with listeners whose bodies do not reenter the registry, `emit`
invokes every exact-path listener in registration order, then every
unscoped listener in registration order, passing the argument list to each
(the registry itself is the invocation context: each invocation is a state
transformer of this registry), and returns true exactly when at least one
listener fired.  In particular, in the spec's scenario (`on("x", L4)` then
`onAny(L3)`), `emit("x")` invokes `L4` then `L3` and returns true, and
`emit("y")` on the never-registered name invokes only `L3` and still
returns true. -/
theorem c4_emit_order_and_result :
    (∀ s e args,
      (∀ l ∈ pathEntries s e, isPlain l = true) →
      (∀ l ∈ anyEntries s, isPlain l = true) →
      (emit inertEnv s e args).1.invLog
          = s.invLog ++ (pathEntries s e ++ anyEntries s).map (fun l => (l, args)) ∧
      ((emit inertEnv s e args).2 = true ↔ pathEntries s e ++ anyEntries s ≠ [])) ∧
    (emit inertEnv c4S "x" []).1.invLog
      = c4S.invLog ++ [(.plain 4, []), (.plain 3, [])] ∧
    (emit inertEnv c4S "x" []).2 = true ∧
    (emit inertEnv c4S "y" []).1.invLog = c4S.invLog ++ [(.plain 3, [])] ∧
    (emit inertEnv c4S "y" []).2 = true := by
  refine ⟨?_, by decide, by decide, by decide, by decide⟩
  intro s e args hp ha
  rw [emit_inert_plain s e args hp ha]
  exact ⟨rfl, by simp⟩

/-- C4 witness: the general clause applied to the spec's concrete
scenario. -/
theorem c4_emit_order_and_result_witness :
    (∀ l ∈ pathEntries c4S "x", isPlain l = true) ∧
    (∀ l ∈ anyEntries c4S, isPlain l = true) ∧
    (emit inertEnv c4S "x" []).1.invLog
      = c4S.invLog ++ (pathEntries c4S "x" ++ anyEntries c4S).map (fun l => (l, [])) :=
  ⟨by decide, by decide,
    (c4_emit_order_and_result.1 c4S "x" [] (by decide) (by decide)).1⟩

theorem many_fresh (e : String) (id : Nat) (n : Nat) (hn : 1 ≤ n) :
    (many inertEnv initialEmitter e (n : Int) (.plain id)).1
      = c5State e [.wrapper 0 e (.plain id)] (n : Int) [] := by
  have hpos : ¬((n : Int) ≤ 0) := by omega
  rw [many, if_neg hpos]
  norm_num [addListener, emit, listeners, splitNamespaces, initialEmitter,
    Trie.getKeyValue, Trie.findChild, Trie.setKeyValue, Trie.setChild, setCounter,
    mergeListenerArrays_, c5State]

theorem emit_c5_step_ge2 (e : String) (id : Nat) (k : Int) (hk : ¬(k - 1 = 0))
    (log : List (Listener × List JsArg)) :
    emit inertEnv (c5State e [.wrapper 0 e (.plain id)] k log) e []
      = (c5State e [.wrapper 0 e (.plain id)] (k - 1)
          (log ++ [(.wrapper 0 e (.plain id), []), (.plain id, [])]), true) := by
  simp [emit, listeners, splitNamespaces, c5State, Trie.getKeyValue, Trie.findChild,
    runSnapshot, invoke, lookupCounter, setCounter, inertEnv, hk]

theorem emit_c5_step_one (e : String) (id : Nat) (log : List (Listener × List JsArg)) :
    emit inertEnv (c5State e [.wrapper 0 e (.plain id)] 1 log) e []
      = (c5State e [] 0
          (log ++ [(.wrapper 0 e (.plain id), []), (.plain id, [])]), true) := by
  simp [emit, listeners, splitNamespaces, c5State, Trie.getKeyValue, Trie.findChild,
    runSnapshot, invoke, lookupCounter, setCounter, inertEnv, off, Trie.updateValue,
    Trie.setChild, removeFirstMatch, matchesOff]

theorem emit_c5_exhausted (e : String) (k : Int) (log : List (Listener × List JsArg)) :
    emit inertEnv (c5State e [] k log) e [] = (c5State e [] k log, false) := by
  simp [emit, listeners, splitNamespaces, c5State, Trie.getKeyValue, Trie.findChild,
    runSnapshot]

theorem emitN_c5_exhausted (e : String) (k : Int) (log : List (Listener × List JsArg)) :
    ∀ m, emitN inertEnv e m (c5State e [] k log) = c5State e [] k log := by
  intro m
  induction m with
  | zero => rfl
  | succ m ih =>
    simp only [emitN, emit_c5_exhausted]
    exact ih

theorem invCount_c5_append (e : String) (id : Nat) (log : List (Listener × List JsArg)) :
    ((log ++ [(Listener.wrapper 0 e (.plain id), ([] : List JsArg)),
        (.plain id, [])]).filter (fun p => decide (p.1 = Listener.plain id))).length
      = (log.filter (fun p => decide (p.1 = Listener.plain id))).length + 1 := by
  simp [List.filter_append, List.filter]

theorem c5_count (e : String) (id : Nat) :
    ∀ (m k : Nat) (log : List (Listener × List JsArg)), 1 ≤ k →
      invCount (emitN inertEnv e m (c5State e [.wrapper 0 e (.plain id)] (k : Int) log))
          (.plain id)
        = (log.filter (fun p => decide (p.1 = Listener.plain id))).length + min m k := by
  intro m
  induction m with
  | zero =>
    intro k log hk
    simp [emitN, invCount, c5State]
  | succ m ih =>
    intro k log hk
    by_cases hk1 : k = 1
    · subst hk1
      simp only [emitN, Nat.cast_one, emit_c5_step_one]
      rw [emitN_c5_exhausted]
      simp only [invCount, c5State]
      rw [invCount_c5_append]
      omega
    · have hk2 : 2 ≤ k := by omega
      have hcast : (k : Int) - 1 = ((k - 1 : Nat) : Int) := by omega
      simp only [emitN]
      rw [emit_c5_step_ge2 e id (k : Int) (by omega) log]
      simp only [hcast]
      rw [ih (k - 1) _ (by omega)]
      rw [invCount_c5_append]
      omega

/-- C5: from a fresh emitter, `many(e, n, L)` with `n >= 1` followed by `m`
emissions of `e` invokes `L` exactly `min m n` times (the counting wrapper
decrements its captured amount and removes itself on reaching zero);
`once` is literally `many` with amount 1 (EventEmitter.js line 240), so
after the first emission the wrapper is gone from `listeners(e)` (the list
is empty) and a second emission invokes nothing further. -/
theorem c5_many_once_counting :
    (∀ (e : String) (id : Nat) (n m : Nat), 1 ≤ n →
      invCount (emitN inertEnv e m (many inertEnv initialEmitter e (n : Int) (.plain id)).1)
          (.plain id) = min m n) ∧
    (∀ env s e l, once env s e l = many env s e 1 l) ∧
    listeners (emitN inertEnv "e" 1 (once inertEnv initialEmitter "e" (.plain 7)).1) "e"
      = some { entries := [], warned := false } ∧
    invCount (emitN inertEnv "e" 1 (once inertEnv initialEmitter "e" (.plain 7)).1)
      (.plain 7) = 1 ∧
    invCount (emitN inertEnv "e" 2 (once inertEnv initialEmitter "e" (.plain 7)).1)
      (.plain 7) = 1 := by
  refine ⟨?_, fun env s e l => rfl, by decide, by decide, by decide⟩
  intro e id n m hn
  rw [many_fresh e id n hn]
  rw [c5_count e id m n [] hn]
  simp

/-- C5 witness: `many` with amount 2 and three emissions invokes the
listener exactly twice. -/
theorem c5_many_once_counting_witness :
    1 ≤ 2 ∧
    invCount (emitN inertEnv "a" 3 (many inertEnv initialEmitter "a" ((2 : Nat) : Int)
      (.plain 0)).1) (.plain 0) = min 3 2 :=
  ⟨by decide, c5_many_once_counting.1 "a" 0 2 3 (by decide)⟩
